import Mathlib

/-!
# Verification of the bench-test acquisition and spike-detection pipeline

This file is a shallow embedding, in Lean 4, of the core of the `Current`
bench-test program (`current_code.py`, `Current_module.py`): the sample-stream
parser, the spike detector with its classification, the acquisition controller
`run_test`, and the test sequencer `run_beep_sequence`.

Modelling conventions:
* Current readings and voltages (Python floats) are modelled as exact
  rationals `ℚ`; the parsed decimal/scientific literals are given their exact
  decimal values.
* Instrument payload strings are modelled as `String` / `List Char`; the
  character class `str.isdigit` is modelled over the ASCII digits, which is
  the alphabet instrument responses use.
* Instrument communication is modelled by an environment (oracle) answering
  each communication step either with a response string or with a raised
  communication error; Python exceptions are `Except Unit`.
* The `while` loop of `detect_beep` is modelled with explicit fuel, so that
  its non-termination for `min_gap = 0` is expressible: a `none` outcome at
  every fuel value is the denotation of a diverging loop.
-/

namespace Current

/-! ## Sample stream parser (`run_test`, lines 85–106)

The raw payload is stripped, split on `','` if a comma is present, and each
token is reduced to its characters that are digits or one of `.`, `-`, `E`,
`e`; a token whose cleaned form is empty or fails float conversion is
dropped. -/

/-- The whitespace characters removed by Python `str.strip()` (ASCII range). -/
def isPySpace (c : Char) : Bool :=
  c = ' ' || c = '\t' || c = '\n' || c = '\r' || c = '\x0b' || c = '\x0c'

/-- Python `raw_data.strip()` on the character list of the payload. -/
def pyStrip (l : List Char) : List Char :=
  ((l.dropWhile isPySpace).reverse.dropWhile isPySpace).reverse

/-- The characters kept by the cleaning step of `run_test`
(`c.isdigit() or c in '.-Ee'`). -/
def isKept (c : Char) : Bool :=
  c.isDigit || c = '.' || c = '-' || c = 'E' || c = 'e'

/-- `''.join(c for c in value if c.isdigit() or c in '.-Ee')`. -/
def cleanToken (l : List Char) : List Char := l.filter isKept

/-- Python `s.split(',')`: split at every comma, keeping empty pieces. -/
def splitComma : List Char → List (List Char)
  | [] => [[]]
  | c :: r =>
    if c = ',' then [] :: splitComma r
    else
      match splitComma r with
      | [] => [[c]]
      | t :: ts => (c :: t) :: ts

/-- Value of a (non-empty) ASCII digit string, most significant digit first. -/
def digitsVal (l : List Char) : ℕ :=
  l.foldl (fun a c => 10 * a + (c.toNat - 48)) 0

/-- Mantissa part of Python `float()` on a cleaned token: digits, optionally
followed by `.` and further digits; at least one digit overall.  Returns the
digit string's value together with the number of fractional digits (so the
mantissa's value is the first component over `10 ^` the second), and the
unconsumed remainder. -/
def parseMantissa (l : List Char) : Option ((ℕ × ℕ) × List Char) :=
  let ip := l.takeWhile Char.isDigit
  let r1 := l.dropWhile Char.isDigit
  match r1 with
  | '.' :: r2 =>
    let fp := r2.takeWhile Char.isDigit
    let r3 := r2.dropWhile Char.isDigit
    if ip = [] ∧ fp = [] then none
    else some ((digitsVal (ip ++ fp), fp.length), r3)
  | _ => if ip = [] then none else some ((digitsVal ip, 0), r1)

/-- Exponent part of Python `float()` on a cleaned token: nothing, or
`e`/`E`, an optional `-`, and digits reaching the end of the token.
(`+` cannot occur: the cleaning step has removed it.) -/
def parseExp : List Char → Option ℤ
  | [] => some 0
  | c :: r =>
    if c = 'e' ∨ c = 'E' then
      match r with
      | '-' :: r2 =>
        if r2.takeWhile Char.isDigit = [] ∨ r2.dropWhile Char.isDigit ≠ [] then none
        else some (-(digitsVal (r2.takeWhile Char.isDigit) : ℤ))
      | _ =>
        if r.takeWhile Char.isDigit = [] ∨ r.dropWhile Char.isDigit ≠ [] then none
        else some ((digitsVal (r.takeWhile Char.isDigit) : ℤ))
    else none

/-- Scale a mantissa by a (possibly negative) power of ten. -/
def applyExp (m : ℚ) (e : ℤ) : ℚ :=
  if 0 ≤ e then m * 10 ^ e.toNat else m / 10 ^ (-e).toNat

/-- Integer representation of an accepted float literal: signed mantissa
digit value, number of fractional digits, exponent. -/
abbrev FloatRepr : Type := ℤ × ℕ × ℤ

/-- The rational value denoted by a float-literal representation. -/
def reprVal : FloatRepr → ℚ
  | (n, f, e) => applyExp ((n : ℚ) / 10 ^ f) e

/-- Python `float()` restricted to cleaned tokens (strings over digits and
`.-Ee`), returning the literal's integer representation: an optional leading
`-`, a mantissa, and an optional exponent.  `none` is a `ValueError`. -/
def pyFloatRepr? (l : List Char) : Option FloatRepr :=
  match l with
  | '-' :: r =>
    match parseMantissa r with
    | none => none
    | some ((n, f), rest) =>
      match parseExp rest with
      | none => none
      | some e => some (-(n : ℤ), f, e)
  | _ =>
    match parseMantissa l with
    | none => none
    | some ((n, f), rest) =>
      match parseExp rest with
      | none => none
      | some e => some ((n : ℤ), f, e)

/-- Python `float()` on a cleaned token, as a rational value. -/
def pyFloat? (l : List Char) : Option ℚ :=
  (pyFloatRepr? l).map reprVal

/-- Per-token treatment of `run_test`, at representation level: clean the
token; an empty cleaned token is skipped, and a cleaned token on which
`float()` raises is skipped (the `except ValueError: continue`). -/
def tokenRepr? (t : List Char) : Option FloatRepr :=
  let cv := cleanToken t
  if cv = [] then none else pyFloatRepr? cv

/-- Per-token treatment of `run_test`: the reading contributed by one
comma-separated piece of the payload, if any. -/
def tokenVal? (t : List Char) : Option ℚ :=
  (tokenRepr? t).map reprVal

/-- The payload-to-readings logic of `run_test` after `strip()`:
the comma branch cleans and converts each piece, dropping failures; the
single-value branch yields one reading or none. -/
def parseChars (l : List Char) : List ℚ :=
  if l.contains ',' then (splitComma l).filterMap tokenVal?
  else
    match tokenVal? l with
    | some q => [q]
    | none => []

/-- The sample stream parser: `strip`, then `parseChars`. -/
def parsePayload (raw : String) : List ℚ :=
  parseChars (pyStrip raw.data)

/-- Comma-joining of tokens (the shape of a well-formed multi-sample
instrument payload). -/
def joinComma : List (List Char) → List Char
  | [] => []
  | [t] => t
  | t :: ts => t ++ ',' :: joinComma ts

/-! ## Spike detector (`detect_beep`, lines 122–146)

`above = np.array(readings) > threshold`, then a cursor scan: at an
above-threshold sample, record the index and jump the cursor by `min_gap`;
otherwise step by 1.  The `while` loop is modelled with fuel: `none` means
the fuel ran out with the cursor still inside the array, so a `none` result
at every fuel is the denotation of a diverging loop.  With `min_gap ≥ 1`
the cursor strictly advances, so fuel `readings.length` always suffices. -/

/-- Elementwise `np.array(readings) > threshold`. -/
def aboveList (r : List ℚ) (t : ℚ) : List Bool :=
  r.map fun x => decide (t < x)

/-- The `while i < len(above)` scan of `detect_beep`, with explicit fuel. -/
def spikeLoopFuel (above : List Bool) (g : ℕ) : ℕ → ℕ → Option (List ℕ)
  | 0, i => if i < above.length then none else some []
  | fuel + 1, i =>
    if h : i < above.length then
      if above.get ⟨i, h⟩ then
        (spikeLoopFuel above g fuel (i + g)).map (fun l => i :: l)
      else spikeLoopFuel above g fuel (i + 1)
    else some []

/-- The recorded `spike_indices` of one detection pass (`some` exactly when
the scan terminates; fuel `r.length` is enough for every terminating scan,
since a scan that terminates takes at most `r.length` iterations). -/
def spikeIndices? (r : List ℚ) (t : ℚ) (g : ℕ) : Option (List ℕ) :=
  spikeLoopFuel (aboveList r t) g r.length 0

/-- `num_spikes = len(spike_indices)`. -/
def numSpikes? (r : List ℚ) (t : ℚ) (g : ℕ) : Option ℕ :=
  (spikeIndices? r t g).map List.length

/-- The value returned by `detect_beep`: inner `some b` for a supported
label's verdict, inner `none` for the implicit Python `None` returned when
the label is neither `"Double Beep"` nor `"Triple Beep"`; outer `none` when
the scan diverges and no value is ever returned. -/
def detectBeep (r : List ℚ) (label : String) (t : ℚ) (g : ℕ) :
    Option (Option Bool) :=
  (spikeIndices? r t g).map fun l =>
    if label = "Double Beep" then some (decide (2 ≤ l.length))
    else if label = "Triple Beep" then some (decide (3 ≤ l.length))
    else none

/-! ## Acquisition controller (`run_test`, lines 63–120) and test sequencer
(`run_beep_sequence`, lines 179–204)

Instrument traffic is modelled as a list of actions.  An environment
answers each fallible communication step (a `write` or `query`) in order:
`ok resp` for success (`resp` is the payload for queries, ignored for
writes) or `err` for a raised communication error.  Attribute assignment
(`dmm.timeout = …`) and `time.sleep` cannot raise and take no answer. -/

/-- One instrument command or local step issued during a run. -/
inductive Act where
  | psuSelectChannel
  | psuSetVoltage (v : ℚ)
  | psuOutputOn
  | dmmSetTimeout (ms : ℤ)
  | dmmClearStatus
  | dmmConfCurrDC
  | dmmSetNPLC (nplc : ℚ)
  | dmmSetSampleCount (n : ℕ)
  | dmmTrigImmediate
  | dmmInit
  | waitSleep (seconds : ℚ)
  | dmmFetch
deriving DecidableEq

/-- The environment's answer to one communication step. -/
inductive StepRes where
  | ok (resp : String)
  | err
deriving DecidableEq

/-- `true` when the step succeeded. -/
def StepRes.isOk : StepRes → Bool
  | .ok _ => true
  | .err => false

/-- An environment: the answer to the `k`-th communication step of a run. -/
def Env : Type := ℕ → StepRes

/-- A program step: a fallible communication, or an infallible local step. -/
inductive PStep where
  | comm (a : Act)
  | intern (a : Act)

/-- Run a straight-line list of program steps against an environment,
starting at communication index `k`.  Returns the actions issued (a failing
communication is issued, everything after it is not), the next
communication index, and whether all steps succeeded. -/
def execSteps (env : Env) (k : ℕ) : List PStep → List Act × ℕ × Bool
  | [] => ([], k, true)
  | .intern a :: rest =>
    let (tr, k', good) := execSteps env k rest
    (a :: tr, k', good)
  | .comm a :: rest =>
    match env k with
    | .err => ([a], k + 1, false)
    | .ok _ =>
      let (tr, k', good) := execSteps env (k + 1) rest
      (a :: tr, k', good)

/-- Python `int()` (truncation toward zero) on a rational. -/
def pyInt (q : ℚ) : ℤ := q.num.tdiv (q.den : ℤ)

/-- The three power-source programming commands at the top of `run_test`,
issued before the `try` block (`:INST CH1`, `:VOLT {v:.2f}`, `:OUTP ON`). -/
def psuProgSteps (v : ℚ) : List PStep :=
  [.comm .psuSelectChannel, .comm (.psuSetVoltage v), .comm .psuOutputOn]

/-- The measuring-instrument configuration and wait steps inside the `try`
block of `run_test`, up to (not including) the fetch. -/
def dmmConfSteps (nplc : ℚ) (n : ℕ) : List PStep :=
  [.intern (.dmmSetTimeout (pyInt ((n : ℚ) * nplc * 1000 * 2))),
   .comm .dmmClearStatus,
   .comm .dmmConfCurrDC,
   .comm (.dmmSetNPLC nplc),
   .comm (.dmmSetSampleCount n),
   .comm .dmmTrigImmediate,
   .comm .dmmInit,
   .intern (.waitSleep ((n : ℚ) / 100))]

/-- The result dictionary of `run_test`. -/
structure AcqResult where
  label : String
  voltage : ℚ
  readings : List ℚ
deriving DecidableEq

/-- `run_test`: program the power source (outside the `try`: a failure
there escapes as `Except.error`), then, under the `try`, configure the
measuring instrument, wait, fetch, and parse; any communication failure
inside the `try` is caught and yields the label and voltage with empty
readings.  Returns the outcome together with the issued actions. -/
def runTestFull (env : Env) (voltage : ℚ) (label : String) (nplc : ℚ)
    (n : ℕ) : Except Unit AcqResult × List Act :=
  let (tr1, k1, good1) := execSteps env 0 (psuProgSteps voltage)
  if good1 then
    let (tr2, k2, good2) := execSteps env k1 (dmmConfSteps nplc n)
    if good2 then
      match env k2 with
      | .err => (.ok ⟨label, voltage, []⟩, tr1 ++ tr2 ++ [.dmmFetch])
      | .ok raw => (.ok ⟨label, voltage, parsePayload raw⟩, tr1 ++ tr2 ++ [.dmmFetch])
    else (.ok ⟨label, voltage, []⟩, tr1 ++ tr2)
  else (.error (), tr1)

/-- The outcome of `run_test` alone. -/
def runTest (env : Env) (voltage : ℚ) (label : String) (nplc : ℚ)
    (n : ℕ) : Except Unit AcqResult :=
  (runTestFull env voltage label nplc n).1

/-- Python `min` on a non-empty list (`0` is never used: the sequencer only
takes statistics of a non-empty reading list). -/
def listMin : List ℚ → ℚ
  | [] => 0
  | x :: xs => xs.foldl min x

/-- Python `max` on a non-empty list. -/
def listMax : List ℚ → ℚ
  | [] => 0
  | x :: xs => xs.foldl max x

/-- How `run_beep_sequence` ends when no exception escapes. -/
inductive SeqOutcome where
  | refused
  | noData
  | completed (minC maxC meanC : ℚ) (double triple : Option (Option Bool))
deriving DecidableEq

/-- `run_beep_sequence`: refuse immediately if the power source handle is
`none`; otherwise `:OUTP ON`, the main run (readings empty → report no data
and stop before any statistics), then the double- and triple-beep runs with
their detections, and the aggregate statistics of the main run.  The three
runs consume the environments `e1`, `e2`, `e3`; `e0` answers the
sequencer's own `:OUTP ON` write.  An uncaught `run_test` failure (a
power-source programming failure) escapes as `Except.error`.  Returns the
outcome together with all instrument actions issued. -/
def runBeepSequence (psu : Option Unit) (e0 : StepRes) (e1 e2 e3 : Env)
    (vMain vDouble vTriple : ℚ) : Except Unit SeqOutcome × List Act :=
  match psu with
  | none => (.ok .refused, [])
  | some _ =>
    match e0 with
    | .err => (.error (), [.psuOutputOn])
    | .ok _ =>
      match runTestFull e1 vMain "Main Test" (1 / 10) 100 with
      | (.error _, tr1) => (.error (), .psuOutputOn :: tr1)
      | (.ok res1, tr1) =>
        if res1.readings = [] then (.ok .noData, .psuOutputOn :: tr1)
        else
          match runTestFull e2 vDouble "Double Beep" (1 / 10) 100 with
          | (.error _, tr2) => (.error (), .psuOutputOn :: (tr1 ++ tr2))
          | (.ok res2, tr2) =>
            match runTestFull e3 vTriple "Triple Beep" 1 600 with
            | (.error _, tr3) => (.error (), .psuOutputOn :: (tr1 ++ tr2 ++ tr3))
            | (.ok res3, tr3) =>
              (.ok (.completed (listMin res1.readings) (listMax res1.readings)
                  (res1.readings.sum / res1.readings.length)
                  (detectBeep res2.readings "Double Beep" (5 / 1000) 10)
                  (detectBeep res3.readings "Triple Beep" (5 / 1000) 10)),
               .psuOutputOn :: (tr1 ++ tr2 ++ tr3))

/-! ## Parser lemmas -/

lemma kept_not_space {c : Char} (h : isPySpace c = true) : isKept c = false := by
  simp only [isPySpace, Bool.or_eq_true, decide_eq_true_eq] at h
  rcases h with ((((rfl | rfl) | rfl) | rfl) | rfl) | rfl <;> decide

lemma dropWhile_eq_self_of {p : Char → Bool} {l : List Char}
    (h : ∀ c ∈ l, p c = false) : l.dropWhile p = l := by
  cases l with
  | nil => rfl
  | cons c r => simp [List.dropWhile_cons, h c (by simp)]

lemma pyStrip_eq_self {l : List Char} (h : ∀ c ∈ l, isPySpace c = false) :
    pyStrip l = l := by
  unfold pyStrip
  rw [dropWhile_eq_self_of h, dropWhile_eq_self_of (by simpa using h),
    List.reverse_reverse]

lemma cleanToken_eq_self {t : List Char} (h : ∀ c ∈ t, isKept c = true) :
    cleanToken t = t :=
  List.filter_eq_self.mpr h

lemma splitComma_no_comma {t : List Char} (h : ',' ∉ t) : splitComma t = [t] := by
  induction t with
  | nil => rfl
  | cons c r ih =>
    have hc : ¬(c = ',') := fun hc => h (hc ▸ List.mem_cons_self c r)
    have hr : ',' ∉ r := fun hr => h (List.mem_cons_of_mem c hr)
    simp [splitComma, hc, ih hr]

lemma splitComma_append {t rest : List Char} (h : ',' ∉ t) :
    splitComma (t ++ ',' :: rest) = t :: splitComma rest := by
  induction t with
  | nil => simp [splitComma]
  | cons c r ih =>
    have hc : ¬(c = ',') := fun hc => h (hc ▸ List.mem_cons_self c r)
    have hr : ',' ∉ r := fun hr => h (List.mem_cons_of_mem c hr)
    rw [List.cons_append, splitComma, if_neg hc, ih hr]

lemma mem_joinComma {c : Char} :
    ∀ {ts : List (List Char)}, c ∈ joinComma ts → c = ',' ∨ ∃ t ∈ ts, c ∈ t
  | [], h => by simp [joinComma] at h
  | [t], h => by
    right; exact ⟨t, by simp, by simpa [joinComma] using h⟩
  | t :: t' :: ts, h => by
    rw [show joinComma (t :: t' :: ts) = t ++ ',' :: joinComma (t' :: ts) from rfl,
      List.mem_append] at h
    rcases h with h | h
    · exact Or.inr ⟨t, by simp, h⟩
    · rcases List.mem_cons.mp h with h | h
      · exact Or.inl h
      · rcases mem_joinComma h with h | ⟨u, hu, hcu⟩
        · exact Or.inl h
        · exact Or.inr ⟨u, List.mem_cons_of_mem _ hu, hcu⟩

lemma pyFloatRepr?_nil : pyFloatRepr? [] = none := rfl

/-- `filterMap` with the value-level token function factors through the
representation-level one. -/
lemma filterMap_tokenVal (l : List (List Char)) :
    l.filterMap tokenVal? = (l.filterMap tokenRepr?).map reprVal := by
  rw [List.map_filterMap]; rfl

/-- A well-formed token (only kept characters, accepted by `float()`)
contributes exactly its value. -/
lemma tokenVal?_of_kept {t : List Char} {v : ℚ}
    (hk : ∀ c ∈ t, isKept c = true) (hv : pyFloat? t = some v) :
    tokenVal? t = some v := by
  have hne : t ≠ [] := by
    rintro rfl
    rw [pyFloat?, pyFloatRepr?_nil] at hv
    exact Option.noConfusion hv
  rw [tokenVal?, tokenRepr?, cleanToken_eq_self hk, if_neg hne]
  exact hv

/-- Over the comma branch, a comma-joined list of well-formed tokens parses
back to exactly its values. -/
lemma filterMap_splitComma_joinComma {ts : List (List Char)} {vals : List ℚ}
    (h : List.Forall₂ (fun t v =>
      (∀ c ∈ t, isKept c = true) ∧ pyFloat? t = some v) ts vals) :
    (splitComma (joinComma ts)).filterMap tokenVal? = vals := by
  induction h with
  | nil => simp [joinComma, splitComma, List.filterMap]; rfl
  | @cons t v ts vals hp hrest ih =>
    have hnc : ',' ∉ t := fun hmem => by
      have := hp.1 ',' hmem
      simp [isKept] at this
    cases hrest with
    | nil =>
      rw [show joinComma [t] = t from rfl, splitComma_no_comma hnc]
      simp [List.filterMap, tokenVal?_of_kept hp.1 hp.2]
    | cons hp' hrest' =>
      rw [show joinComma (t :: _ :: _) = t ++ ',' :: joinComma (_ :: _) from rfl,
        splitComma_append hnc]
      simp only [List.filterMap_cons, tokenVal?_of_kept hp.1 hp.2]
      rw [ih]

lemma forall₂_exists_left {R : List Char → ℚ → Prop} {ts : List (List Char)}
    {vs : List ℚ} (h : List.Forall₂ R ts vs) (t : List Char) (ht : t ∈ ts) :
    ∃ v, R t v := by
  induction h with
  | nil => simp at ht
  | cons hp _ ih =>
    rcases List.mem_cons.mp ht with rfl | ht'
    · exact ⟨_, hp⟩
    · exact ih ht'

/-- C3: for every payload that is a comma-joined list of valid float
literals (tokens over the kept alphabet accepted by `float()`), the parser
returns exactly those numeric values in order; and on the payload
`"0.012A,0.5,bad,0.9"`, with interspersed non-numeric characters, the
result is exactly `[0.012, 0.5, 0.9]` — tokens yielding no valid numeric
characters or failing conversion are dropped, never fatal. -/
theorem parsePayload_roundtrip_and_drops :
    (∀ (ts : List (List Char)) (vals : List ℚ),
      List.Forall₂ (fun t v =>
        (∀ c ∈ t, isKept c = true) ∧ pyFloat? t = some v) ts vals →
      parsePayload ⟨joinComma ts⟩ = vals) ∧
    parsePayload "0.012A,0.5,bad,0.9" = [0.012, 0.5, 0.9] := by
  constructor
  · intro ts vals h
    have hkept : ∀ t ∈ ts, ∀ c ∈ t, isKept c = true := by
      intro t ht
      obtain ⟨v, hp, -⟩ := forall₂_exists_left h t ht
      exact hp
    have hstrip : pyStrip (joinComma ts) = joinComma ts := by
      apply pyStrip_eq_self
      intro c hc
      rcases mem_joinComma hc with rfl | ⟨t, ht, hct⟩
      · decide
      · by_cases hsp : isPySpace c = true
        · exact absurd (hkept t ht c hct) (by simp [kept_not_space hsp])
        · simpa using hsp
    rw [parsePayload, show (String.mk (joinComma ts)).data = joinComma ts from rfl,
      hstrip]
    cases h with
    | nil => rfl
    | @cons t v ts' vals' hp hrest =>
      have hnc : ',' ∉ t := fun hmem => by
        have := hp.1 ',' hmem
        simp [isKept] at this
      cases hrest with
      | nil =>
        have hnc' : ',' ∉ joinComma [t] := by
          simpa [joinComma] using hnc
        rw [parseChars, if_neg (by simpa using hnc'),
          show joinComma [t] = t from rfl]
        rw [tokenVal?_of_kept hp.1 hp.2]
      | @cons t' v' ts'' vals'' hp' hrest' =>
        have hcomma : ',' ∈ joinComma (t :: t' :: ts'') := by
          rw [show joinComma (t :: t' :: ts'') = t ++ ',' :: joinComma (t' :: ts'')
            from rfl]
          simp
        rw [parseChars, if_pos (by simpa using hcomma)]
        exact filterMap_splitComma_joinComma (List.Forall₂.cons hp (hrest'.cons hp'))
  · have h : (splitComma (pyStrip "0.012A,0.5,bad,0.9".data)).filterMap tokenRepr? =
        [(12, 3, 0), (5, 1, 0), (9, 1, 0)] := by decide
    have hc : (pyStrip "0.012A,0.5,bad,0.9".data).contains ',' = true := by decide
    rw [parsePayload, parseChars, if_pos hc, filterMap_tokenVal, h]
    norm_num [reprVal, applyExp]

/-- Witness for C3's universal part: the two-token payload `"1,2.5"`
round-trips to `[1, 2.5]`. -/
theorem parsePayload_roundtrip_witness : parsePayload ⟨joinComma ["1".data, "2.5".data]⟩ = [1, 5/2] := by
  have h25 : pyFloat? "2.5".data = some (5/2) := by
    have : pyFloatRepr? "2.5".data = some (25, 1, 0) := by decide
    rw [pyFloat?, this]
    norm_num [reprVal, applyExp]
  have h1 : pyFloat? "1".data = some 1 := by
    have : pyFloatRepr? "1".data = some (1, 0, 0) := by decide
    rw [pyFloat?, this]
    norm_num [reprVal, applyExp]
  exact parsePayload_roundtrip_and_drops.1 ["1".data, "2.5".data] [1, 5/2]
    (by
      refine List.Forall₂.cons ⟨by decide, h1⟩ (List.Forall₂.cons ⟨by decide, h25⟩ ?_)
      exact List.Forall₂.nil)

/-- C9: parsing an empty payload — empty string, or whitespace only, so
that it is empty after stripping — yields an empty readings sequence (the
parser is a total function: no error is possible). -/
theorem parsePayload_empty (raw : String) (h : pyStrip raw.data = []) :
    parsePayload raw = [] := by
  rw [parsePayload, h]; rfl

/-- Witness for C9 at the whitespace payload `"  "`. -/
theorem parsePayload_empty_witness : parsePayload "  " = [] :=
  parsePayload_empty "  " (by decide)

/-! ## Detector lemmas -/

/-- With a positive gap the cursor strictly advances, so fuel covering the
remaining distance makes the scan terminate. -/
lemma spikeLoopFuel_isSome (above : List Bool) (g : ℕ) (hg : 1 ≤ g) :
    ∀ fuel i, above.length ≤ i + fuel →
      (spikeLoopFuel above g fuel i).isSome = true := by
  intro fuel
  induction fuel with
  | zero =>
    intro i hi
    rw [spikeLoopFuel, if_neg (by omega)]
    rfl
  | succ fuel ih =>
    intro i hi
    rw [spikeLoopFuel]
    split
    · split
      · simpa using ih (i + g) (by omega)
      · exact ih (i + 1) (by omega)
    · rfl

/-- With `min_gap = 0`, as long as some reading at or beyond the cursor is
above threshold, the scan exhausts any amount of fuel: the loop diverges. -/
lemma spikeLoopFuel_gap_zero_none (above : List Bool) :
    ∀ fuel i, (∃ j, i ≤ j ∧ ∃ h : j < above.length, above.get ⟨j, h⟩ = true) →
      spikeLoopFuel above 0 fuel i = none := by
  intro fuel
  induction fuel with
  | zero =>
    intro i hj
    obtain ⟨j, hij, hjl, -⟩ := hj
    rw [spikeLoopFuel, if_pos (by omega)]
  | succ fuel ih =>
    intro i hj
    obtain ⟨j, hij, hjl, htrue⟩ := hj
    have hil : i < above.length := by omega
    rw [spikeLoopFuel, dif_pos hil]
    by_cases hi : above.get ⟨i, hil⟩ = true
    · rw [if_pos hi, ih (i + 0) ⟨i, by omega, hil, hi⟩]
      rfl
    · rw [if_neg hi]
      refine ih (i + 1) ⟨j, ?_, hjl, htrue⟩
      rcases Nat.eq_or_lt_of_le hij with rfl | h
      · exact absurd htrue hi
      · omega

/-- Every recorded index is at or beyond the cursor, and the recorded
indices are strictly increasing with consecutive gaps of at least
`min_gap`. -/
lemma spikeLoopFuel_chain (above : List Bool) (g : ℕ) :
    ∀ fuel i l, spikeLoopFuel above g fuel i = some l →
      (∀ a ∈ l, i ≤ a) ∧ List.Chain' (fun a b => a < b ∧ a + g ≤ b) l := by
  intro fuel
  induction fuel with
  | zero =>
    intro i l h
    rw [spikeLoopFuel] at h
    split at h
    · exact absurd h (by simp)
    · obtain rfl : l = [] := by simpa using h.symm
      simp
  | succ fuel ih =>
    intro i l h
    rw [spikeLoopFuel] at h
    split at h
    · rename_i hil
      split at h
      · rename_i htrue
        obtain ⟨l', hl', rfl⟩ := Option.map_eq_some'.mp h
        obtain ⟨hbound, hchain⟩ := ih (i + g) l' hl'
        have hg1 : 1 ≤ g := by
          by_contra hg0
          obtain rfl : g = 0 := by omega
          rw [spikeLoopFuel_gap_zero_none above fuel (i + 0) ⟨i, by omega, hil, htrue⟩]
            at hl'
          exact Option.noConfusion hl'
        refine ⟨?_, ?_⟩
        · intro a ha
          rcases List.mem_cons.mp ha with rfl | ha'
          · exact le_refl a
          · exact le_trans (by omega) (hbound a ha')
        · rw [List.chain'_cons']
          refine ⟨?_, hchain⟩
          intro b hb
          have hbl' : b ∈ l' := List.mem_of_mem_head? hb
          have := hbound b hbl'
          exact ⟨by omega, by omega⟩
      · obtain ⟨hbound, hchain⟩ := ih (i + 1) l h
        exact ⟨fun a ha => le_trans (by omega) (hbound a ha), hchain⟩
    · obtain rfl : l = [] := by simpa using h.symm
      simp

/-- The concrete reading list of the spec's detector test case. -/
def c4Readings : List ℚ :=
  [0, 0, 1/100, 1/100, 0, 0, 0, 0, 0, 0, 2/100, 0]

/-- C4: on readings `[0, 0, 0.01, 0.01, 0, 0, 0, 0, 0, 0, 0.02, 0]` with
threshold `0.005` and `min_gap = 10`, the skip-ahead debounce records the
two adjacent activations at indices 2 and 3 as exactly one spike (only
index 2), and the activation at index 10 is recorded as a second spike
exactly when `10 - 2 ≥ min_gap` — here `8 < 10`, so it is not. -/
theorem detect_c4_example :
    spikeIndices? c4Readings (5/1000) 10 = some [2] ∧
    ((10 ∈ (spikeIndices? c4Readings (5/1000) 10).getD []) ↔ 10 ≤ 10 - 2) := by
  have ha : aboveList c4Readings (5/1000) =
      [false, false, true, true, false, false, false, false, false, false,
       true, false] := by
    norm_num [aboveList, c4Readings]
  have hlen : c4Readings.length = 12 := by norm_num [c4Readings]
  rw [spikeIndices?, ha, hlen]
  constructor
  · decide
  · decide

/-- C5: whenever one detection pass terminates with spike count `n`, the
double-beep classification reports detected exactly when `n ≥ 2` and the
triple-beep classification exactly when `n ≥ 3` (counts 0 or 1 give
not-detected for double). -/
theorem detectBeep_threshold (r : List ℚ) (t : ℚ) (g n : ℕ)
    (h : numSpikes? r t g = some n) :
    detectBeep r "Double Beep" t g = some (some (decide (2 ≤ n))) ∧
    detectBeep r "Triple Beep" t g = some (some (decide (3 ≤ n))) := by
  rw [numSpikes?] at h
  obtain ⟨l, hl, rfl⟩ := Option.map_eq_some'.mp h
  rw [detectBeep, detectBeep, hl]
  constructor
  · simp
  · simp

/-- Witness for C5: one spike in `[1, 0]` (threshold 0, gap 1) is not a
double beep and not a triple beep. -/
theorem detectBeep_threshold_witness :
    detectBeep [1, 0] "Double Beep" 0 1 = some (some false) ∧
    detectBeep [1, 0] "Triple Beep" 0 1 = some (some false) := by
  have h := detectBeep_threshold [1, 0] 0 1 1 (by decide)
  simpa using h

/-- C6: within one terminating detection pass, the recorded spike indices
are strictly increasing and consecutive indices are at least `min_gap`
apart. -/
theorem spikeIndices_sorted_gap (r : List ℚ) (t : ℚ) (g : ℕ) (l : List ℕ)
    (h : spikeIndices? r t g = some l) :
    List.Chain' (fun a b => a < b ∧ a + g ≤ b) l :=
  (spikeLoopFuel_chain (aboveList r t) g r.length 0 l h).2

/-- Witness for C6 on the pass over `[1, 0, 0, 1]` with gap 2, which
records indices 0 and 3. -/
theorem spikeIndices_sorted_gap_witness :
    List.Chain' (fun a b => a < b ∧ a + 2 ≤ b) [0, 3] :=
  spikeIndices_sorted_gap [1, 0, 0, 1] 0 2 [0, 3] (by decide)

/-- C10: the detector's scan terminates for every finite readings sequence
when `min_gap ≥ 1` (fuel `r.length` already suffices), and the precondition
is necessary: with `min_gap = 0` and any reading above threshold the cursor
stops advancing, and the scan exhausts every fuel bound — it never
terminates. -/
theorem detect_terminates_iff_gap_pos :
    (∀ (r : List ℚ) (t : ℚ) (g : ℕ), 1 ≤ g →
      (spikeIndices? r t g).isSome = true) ∧
    (∀ (r : List ℚ) (t : ℚ), (∃ x ∈ r, t < x) →
      ∀ fuel, spikeLoopFuel (aboveList r t) 0 fuel 0 = none) := by
  constructor
  · intro r t g hg
    exact spikeLoopFuel_isSome (aboveList r t) g hg r.length 0
      (by simp [aboveList])
  · intro r t hx fuel
    obtain ⟨x, hxr, htx⟩ := hx
    obtain ⟨⟨j, hj⟩, hget⟩ := List.mem_iff_get.mp hxr
    have hjl : j < (aboveList r t).length := by simpa [aboveList] using hj
    refine spikeLoopFuel_gap_zero_none (aboveList r t) fuel 0
      ⟨j, Nat.zero_le j, hjl, ?_⟩
    simp only [aboveList, List.get_eq_getElem, List.getElem_map]
    rw [show r[j] = x from hget]
    simpa using htx

/-- Witness for C10: on `[1]` with threshold 0 the scan terminates for
gap 1 and exhausts fuel 3 for gap 0. -/
theorem detect_terminates_iff_gap_pos_witness :
    (spikeIndices? [1] 0 1).isSome = true ∧
    spikeLoopFuel (aboveList [1] 0) 0 3 0 = none :=
  ⟨detect_terminates_iff_gap_pos.1 [1] 0 1 (by norm_num),
   detect_terminates_iff_gap_pos.2 [1] 0 ⟨1, by norm_num, by norm_num⟩ 3⟩

/-- C2's counterexample: `detect_beep` called with the unsupported label
`"Main Test"` silently returns Python `None` (the scan terminates, no
classification branch fires, nothing is raised): it does not surface an
unsupported-label error. -/
theorem detectBeep_other_label_counterexample :
    detectBeep [] "Main Test" (5/1000) 10 = some none := by
  decide

/-- C2 as amended: for every terminating detection pass, a label other than
`"Double Beep"` or `"Triple Beep"` (the lowercase `"double"`/`"triple"`
included) makes `detect_beep` fall through both classification branches and
silently return Python `None` — no explicit unsupported-label error is
raised. -/
theorem detectBeep_other_label (r : List ℚ) (t : ℚ) (g : ℕ) (label : String)
    (l : List ℕ) (hterm : spikeIndices? r t g = some l)
    (h1 : label ≠ "Double Beep") (h2 : label ≠ "Triple Beep") :
    detectBeep r label t g = some none := by
  rw [detectBeep, hterm]
  simp [h1, h2]

/-- Witness for C2's amended theorem at the label `"double"`. -/
theorem detectBeep_other_label_witness :
    detectBeep [] "double" 0 10 = some none :=
  detectBeep_other_label [] 0 10 "double" [] (by decide) (by decide) (by decide)

/-! ## Acquisition controller and sequencer claims -/

/-- The all-failing environment: every communication step raises. -/
def envAllErr : Env := fun _ => .err

/-- The environment whose every communication step succeeds with an empty
response. -/
def envAllOk : Env := fun _ => .ok ""

/-- The environment failing exactly at communication step `m`. -/
def envErrAt (m : ℕ) : Env := fun k => if k = m then .err else .ok ""

/-- C1's counterexample: a communication failure at the very first step of
`run_test` — programming the power source, before the `try` block — is NOT
caught: the call raises instead of returning an empty-readings result. -/
theorem runTest_psu_failure_raises :
    runTest envAllErr 5 "Main Test" (1/10) 100 = .error () := rfl

/-- C1 as amended: a communication failure at any step inside the `try`
block — the measuring-instrument configuration writes or the fetch (steps
3 through 9) — is caught inside `run_test` and converted into a result
with the request's label and voltage and an empty readings sequence, and
the call does not raise; a failure while programming the power source
(steps 0 through 2, outside the `try`) instead propagates. -/
theorem runTest_dmm_failure_caught (env : Env) (v : ℚ) (label : String)
    (nplc : ℚ) (n : ℕ) (k : ℕ)
    (h0 : (env 0).isOk = true) (h1 : (env 1).isOk = true)
    (h2 : (env 2).isOk = true)
    (hk3 : 3 ≤ k) (hk9 : k ≤ 9) (hkerr : env k = .err) :
    runTest env v label nplc n = .ok ⟨label, v, []⟩ := by
  cases he0 : env 0 with
  | err => rw [he0] at h0; exact absurd h0 (by simp [StepRes.isOk])
  | ok r0 =>
  cases he1 : env 1 with
  | err => rw [he1] at h1; exact absurd h1 (by simp [StepRes.isOk])
  | ok r1 =>
  cases he2 : env 2 with
  | err => rw [he2] at h2; exact absurd h2 (by simp [StepRes.isOk])
  | ok r2 =>
  rw [runTest, runTestFull]
  simp only [psuProgSteps, dmmConfSteps, execSteps, he0, he1, he2]
  cases he3 : env 3 with
  | err => simp
  | ok r3 =>
  cases he4 : env 4 with
  | err => simp
  | ok r4 =>
  cases he5 : env 5 with
  | err => simp
  | ok r5 =>
  cases he6 : env 6 with
  | err => simp
  | ok r6 =>
  cases he7 : env 7 with
  | err => simp
  | ok r7 =>
  cases he8 : env 8 with
  | err => simp
  | ok r8 =>
  have he9 : env 9 = .err := by
    interval_cases k
    · rw [he3] at hkerr; exact absurd hkerr (by simp)
    · rw [he4] at hkerr; exact absurd hkerr (by simp)
    · rw [he5] at hkerr; exact absurd hkerr (by simp)
    · rw [he6] at hkerr; exact absurd hkerr (by simp)
    · rw [he7] at hkerr; exact absurd hkerr (by simp)
    · rw [he8] at hkerr; exact absurd hkerr (by simp)
    · exact hkerr
  simp [he9]

/-- Witness for C1's amended theorem: a failure at step 5 (a
measuring-instrument configuration write) yields the empty-readings result
with label and voltage preserved. -/
theorem runTest_dmm_failure_caught_witness :
    runTest (envErrAt 5) 7 "Double Beep" 1 4 = .ok ⟨"Double Beep", 7, []⟩ :=
  runTest_dmm_failure_caught (envErrAt 5) 7 "Double Beep" 1 4 5
    (by decide) (by decide) (by decide) (by decide) (by decide) (by decide)

/-- C7: calling the sequencer with no power-source connection (handle
`None`) refuses immediately, whatever the environments and voltages: the
outcome is the refusal report and the list of instrument commands issued is
empty. -/
theorem sequencer_refuses_without_psu (e0 : StepRes) (e1 e2 e3 : Env)
    (v1 v2 v3 : ℚ) :
    runBeepSequence none e0 e1 e2 e3 v1 v2 v3 = (.ok .refused, []) := rfl

/-- C8: if the main characterization run completes with zero readings, the
sequence reports no data and stops: the outcome carries no min/max/mean
(so the mean's division by the reading count never happens on an empty
list), no commands beyond the main run's are issued, and the double- and
triple-beep environments `e2`, `e3` are never consulted. -/
theorem sequencer_aborts_on_empty_main (e0resp : String) (e1 e2 e3 : Env)
    (v1 v2 v3 : ℚ) (res1 : AcqResult) (tr1 : List Act)
    (h1 : runTestFull e1 v1 "Main Test" (1/10) 100 = (.ok res1, tr1))
    (hempty : res1.readings = []) :
    runBeepSequence (some ()) (.ok e0resp) e1 e2 e3 v1 v2 v3 =
      (.ok .noData, .psuOutputOn :: tr1) := by
  rw [runBeepSequence, h1]
  simp [hempty]

/-- Witness for C8: an all-succeeding environment whose fetch answers with
an empty payload gives the main run zero readings, and the sequence stops
after the main run's commands. -/
theorem sequencer_aborts_on_empty_main_witness :
    runBeepSequence (some ()) (.ok "") envAllOk envAllOk envAllOk 5 5 5 =
      (.ok .noData,
       .psuOutputOn :: (runTestFull envAllOk 5 "Main Test" (1/10) 100).2) := by
  refine sequencer_aborts_on_empty_main "" envAllOk envAllOk envAllOk 5 5 5
    ⟨"Main Test", 5, []⟩ (runTestFull envAllOk 5 "Main Test" (1/10) 100).2 ?_ rfl
  have hfst : (runTestFull envAllOk 5 "Main Test" (1/10) 100).1 =
      .ok ⟨"Main Test", 5, []⟩ := rfl
  exact Prod.ext hfst rfl

end Current
